import Mathlib

/-!
Verification of the bump-level resolution and propagation engine of
`semantic-version-bump-action` (src/index.ts), shallowly embedded in Lean.

JavaScript machine details are modelled as follows: optional fields are
`Option String`; JS `===` on possibly-undefined strings is `Option` equality;
template interpolation of `undefined` produces the string "undefined";
the asynchronous resolution of `calculatePackagesUpdate` is sequential in the
source (every `await` is in a linear chain), so it is embedded as explicit
state passing with a fuel parameter standing for the recursion depth (a true
dependency cycle deadlocks in the source; here it exhausts fuel or observes an
in-flight cache slot, yielding `none`).
-/

/-- The structured conventional-commit record (interface `CommitBase`,
restricted to the fields the engine reads). -/
structure CommitBase where
  type : Option String := none
  scope : Option String := none
  subject : Option String := none
  header : Option String := none
  hash : Option String := none
deriving DecidableEq, Repr

/-- One entry of `reasons.deps`: `{ name, releaseType }`. -/
structure DepReason where
  name : String
  releaseType : String
deriving DecidableEq, Repr

/-- Interface `Reasons` of src/index.ts. Note: there is no separate
refactor bucket in the source; refactor-typed commits land in `fixes`. -/
structure Reasons where
  breakings : List CommitBase
  feats : List CommitBase
  fixes : List CommitBase
  deps : List DepReason
deriving DecidableEq, Repr, Inhabited

/-- The value returned by the `whatBump` callback: `level` is absent when the
callback returns the empty object `{}`. -/
structure Suggestion where
  level : Option Nat
  reasons : Option Reasons
deriving DecidableEq, Repr

/-- JS `c.type === 'feat'`. -/
def isFeat (c : CommitBase) : Bool := c.type == some "feat"

/-- JS `c.type === 'fix' || c.type === 'refactor'`. -/
def isFixOrRefactor (c : CommitBase) : Bool :=
  c.type == some "fix" || c.type == some "refactor"

/-- JS `String.prototype.startsWith`, expressed on the character sequence
of the strings. -/
def strStartsWith (s p : String) : Bool := p.toList.isPrefixOf s.toList

/-- JS `c.header?.startsWith('BREAKING CHANGE:')` coerced to boolean
(`undefined` is falsy). -/
def isBreakingHeader (c : CommitBase) : Bool :=
  (c.header.map (fun h => strStartsWith h "BREAKING CHANGE:")).getD false

/-- The `whatBump` callback of `getBumpSuggestion` (src/index.ts lines 92-104):
filters the commit list into feats / fixes / breakings and picks the first
matching level, returning `{}` when nothing matches. -/
def whatBump (comments : List CommitBase) : Suggestion :=
  let feats := comments.filter isFeat
  let fixes := comments.filter isFixOrRefactor
  let breakings := comments.filter isBreakingHeader
  if comments.any isBreakingHeader then
    { level := some 0, reasons := some { breakings, feats, fixes, deps := [] } }
  else if comments.any isFeat then
    { level := some 1, reasons := some { breakings, feats, fixes, deps := [] } }
  else if comments.any isFixOrRefactor then
    { level := some 2, reasons := some { breakings, feats, fixes, deps := [] } }
  else
    { level := none, reasons := none }

/-- `getReleaseType` of src/index.ts: numeric level to release-type string,
empty string for any level outside 0..2. -/
def getReleaseType (level : Nat) : String :=
  match level with
  | 0 => "major"
  | 1 => "minor"
  | 2 => "patch"
  | _ => ""

/-- A parsed semantic version. The source keeps versions as strings and
delegates arithmetic to the external `semver` package, specified at its
interface boundary; here versions are kept parsed. -/
structure SemVer where
  major : Nat
  minor : Nat
  patch : Nat
deriving DecidableEq, Repr, Inhabited

/-- Modelled from the spec: the external `semver` package's `inc`
(spec 4.4) — patch increments the third component; minor increments the
second and resets the third; major increments the first and resets the
second and third; any other release type leaves the version unchanged. -/
def inc (v : SemVer) (releaseType : String) : SemVer :=
  if releaseType = "major" then { major := v.major + 1, minor := 0, patch := 0 }
  else if releaseType = "minor" then { major := v.major, minor := v.minor + 1, patch := 0 }
  else if releaseType = "patch" then { major := v.major, minor := v.minor, patch := v.patch + 1 }
  else v

/-- Rendering of a `SemVer` back to its string form. -/
def SemVer.render (v : SemVer) : String :=
  toString v.major ++ "." ++ toString v.minor ++ "." ++ toString v.patch

/-- JS template interpolation of a possibly-undefined string. -/
def jsTmpl (o : Option String) : String := o.getD "undefined"

/-- The fields of `package.json` the engine reads, plus the package directory
(interface `PackageData`; `dependencies` is `Object.keys(...)` in order). -/
structure PackageData where
  packageDir : String
  name : String
  version : SemVer
  dependencies : List String
deriving DecidableEq, Repr, Inhabited

/-- Interface `PackageUpdate` of src/index.ts. -/
structure PackageUpdate where
  pkg : PackageData
  newVersion : SemVer
  bumpLevel : Nat
  reasons : Reasons
deriving DecidableEq, Repr, Inhabited

/-- The `log` helper of src/index.ts: renders one commit line. A JS
empty-string scope is falsy, hence not bolded. -/
def log (remote : String) (reason : CommitBase) : String :=
  let head := match reason.scope with
    | some s => if s.isEmpty then "" else "**" ++ s ++ "**: "
    | none => ""
  "- " ++ head ++ jsTmpl reason.subject ++ " ([" ++ jsTmpl reason.hash ++ "](" ++
    remote ++ "/commit/" ++ jsTmpl reason.hash ++ "))\n"

/-- One `reasons.deps` line of the changelog. -/
def depLine (d : DepReason) : String :=
  "- Dependency " ++ d.name ++ " bump **" ++ d.releaseType ++ "**\n"

/-- `renderChangelog` of src/index.ts (lines 118-147): empty string when the
breakings / deps / feats / fixes buckets are all empty, otherwise a heading
followed by the non-empty sections in fixed order. -/
def renderChangelog (remote : String) (update : PackageUpdate) (dedicated : Bool) : String :=
  let reasons := update.reasons
  if reasons.breakings.isEmpty && reasons.deps.isEmpty && reasons.feats.isEmpty
      && reasons.fixes.isEmpty then ""
  else
    let padding := if dedicated then "###" else "####"
    let body := if dedicated then "## " ++ update.newVersion.render ++ "\n"
      else "### " ++ update.pkg.name ++ "@" ++ update.newVersion.render ++ "\n"
    let body := if reasons.breakings.isEmpty then body
      else body ++ padding ++ " BREAKING CHANGES\n\n" ++
        String.join (reasons.breakings.map (log remote))
    let body := if reasons.feats.isEmpty then body
      else body ++ padding ++ " Features\n\n" ++
        String.join (reasons.feats.map (log remote))
    let body := if reasons.fixes.isEmpty then body
      else body ++ padding ++ " Bug Fixes\n\n" ++
        String.join (reasons.fixes.map (log remote))
    let body := if reasons.deps.isEmpty then body
      else body ++ padding ++ " Dependencies Updates\n\n" ++
        String.join (reasons.deps.map depLine)
    body

/-! ## The dependency-graph propagator (`calculatePackagesUpdate`)

The source resolves packages with a memoized, effectively sequential
depth-first recursion: `visited` maps a package name to its in-flight or
completed resolution, claimed before the dependency recursion. The cache
slot is `none` while in-flight; a recursive demand that observes an
in-flight slot is a dependency cycle, which deadlocks in the source and is
`none` here. The `queries` field logs, in order, the packages whose
own-commit-history query (`getBumpSuggestion`) was executed. -/

/-- The commit source (spec 6): commits since the last release tag for a
package directory. External input to the engine. -/
abbrev CommitEnv := String → List CommitBase

/-- The mutable state of one `calculatePackagesUpdate` run. -/
structure RState where
  visited : List (String × Option PackageUpdate)
  updates : List PackageUpdate
  queries : List String
deriving DecidableEq, Repr, Inhabited

/-- Property read on the JS `visited` object: first binding wins (keys are
unique by construction, so this matches JS object semantics). -/
def lookupVisited (l : List (String × Option PackageUpdate)) (n : String) :
    Option (Option PackageUpdate) :=
  match l with
  | [] => none
  | (k, v) :: rest => if k = n then some v else lookupVisited rest n

/-- Completing a cache slot: the in-flight binding for `n` becomes `some u`. -/
def setVisited (l : List (String × Option PackageUpdate)) (n : String)
    (u : PackageUpdate) : List (String × Option PackageUpdate) :=
  match l with
  | [] => []
  | (k, v) :: rest => if k = n then (k, some u) :: rest else (k, v) :: setVisited rest n u

/-- The `dict` object of `calculatePackagesUpdate`: name to package data,
last assignment wins as in the JS build loop. -/
def buildDict (packages : List PackageData) : String → Option PackageData :=
  fun n => (packages.filter (fun p => p.name = n)).getLast?

/-- The dependency loop of `calculateBump` (src/index.ts lines 181-188):
for each declared dependency name that resolves to a local package, demand
its bump via the supplied resolver and collect the results in order. -/
def resolveDeps (resolver : PackageData → RState → Option (PackageUpdate × RState))
    (dict : String → Option PackageData) :
    List String → RState → Option (List PackageUpdate × RState)
  | [], s => some ([], s)
  | d :: rest, s =>
    match dict d with
    | none => resolveDeps resolver dict rest s
    | some localPackage =>
      match resolver localPackage s with
      | none => none
      | some (u, s1) =>
        match resolveDeps resolver dict rest s1 with
        | none => none
        | some (us, s2) => some (u :: us, s2)

/-- The empty `Reasons` literal of src/index.ts line 193. -/
def emptyReasons : Reasons := { breakings := [], feats := [], fixes := [], deps := [] }

/-- `calculateBump` (src/index.ts lines 177-207), parameterized by the
resolver used for dependencies (`getPackageBump` in the source). Appending
`pkg.name` to `queries` records the `getBumpSuggestion` call. -/
def calculateBump (resolver : PackageData → RState → Option (PackageUpdate × RState))
    (env : CommitEnv) (dict : String → Option PackageData)
    (pkg : PackageData) (s : RState) : Option (PackageUpdate × RState) :=
  let suggestion := whatBump (env pkg.packageDir)
  let s1 : RState := { s with queries := s.queries ++ [pkg.name] }
  match resolveDeps resolver dict pkg.dependencies s1 with
  | none => none
  | some (depsUpdates, s2) =>
    let bumpLevel := Nat.min (suggestion.level.getD 3)
      (if depsUpdates.length > 0 then 2 else 3)
    let releaseType := getReleaseType bumpLevel
    let newVersion := if releaseType.isEmpty then pkg.version else inc pkg.version releaseType
    let reasons0 := suggestion.reasons.getD emptyReasons
    let depNotes := depsUpdates.map
      (fun d => { name := d.pkg.name, releaseType := getReleaseType d.bumpLevel : DepReason })
    let reasons := if depsUpdates.length > 0 then
        { reasons0 with deps := reasons0.deps ++ depNotes }
      else reasons0
    some ({ pkg := pkg, newVersion := newVersion, bumpLevel := bumpLevel,
            reasons := reasons }, s2)

/-- `getPackageBump` (src/index.ts lines 209-220): return the cached
resolution if present (an in-flight slot is a cycle: `none`), otherwise
claim the slot, run `calculateBump`, complete the slot and append the
result to `updates`. Fuel bounds the depth of fresh resolutions; a cache
hit needs no fuel, as in the source. -/
def getPackageBump (env : CommitEnv) (dict : String → Option PackageData) :
    Nat → PackageData → RState → Option (PackageUpdate × RState)
  | 0, pkg, s =>
    match lookupVisited s.visited pkg.name with
    | some (some u) => some (u, s)
    | _ => none
  | fuel + 1, pkg, s =>
    match lookupVisited s.visited pkg.name with
    | some (some u) => some (u, s)
    | some none => none
    | none =>
      let s1 : RState := { s with visited := s.visited ++ [(pkg.name, none)] }
      match calculateBump (getPackageBump env dict fuel) env dict pkg s1 with
      | none => none
      | some (u, s2) =>
        some (u, { s2 with visited := setVisited s2.visited pkg.name u,
                           updates := s2.updates ++ [u] })

/-- The driver loop of `calculatePackagesUpdate`: demand every package of
the run in order. -/
def runLoop (env : CommitEnv) (dict : String → Option PackageData) (fuel : Nat) :
    List PackageData → RState → Option RState
  | [], s => some s
  | p :: rest, s =>
    match getPackageBump env dict fuel p s with
    | none => none
    | some (_, s1) => runLoop env dict fuel rest s1

/-- `calculatePackagesUpdate` (src/index.ts lines 172-231), returning the
final run state (its `updates` field is the source's return value). -/
def calculatePackagesUpdate (env : CommitEnv) (fuel : Nat)
    (packages : List PackageData) : Option RState :=
  runLoop env (buildDict packages) fuel packages
    { visited := [], updates := [], queries := [] }

/-! ## The outputs of `main` -/

/-- The three action outputs set at the end of `main`. -/
structure Outputs where
  release : Bool
  version : String
  changelog : String
deriving DecidableEq, Repr

/-- `Math.min(...updates.map(u => u.bumpLevel))` of src/index.ts line 271.
The seed 3 is neutral: every bump level the engine produces is at most 3,
and for an empty list both `Math.min()` (infinity) and 3 map to the empty
release type downstream. -/
def totalBumpLevel (updates : List PackageUpdate) : Nat :=
  (updates.map (fun u => u.bumpLevel)).foldr Nat.min 3

/-- The root/umbrella next version of the monorepo branch of `main`
(src/index.ts lines 271-273): apply the release type of the most severe
collected bump level to the root manifest version, or leave it unchanged
when the release type is empty. -/
def rootNextVersion (rootVersion : SemVer) (updates : List PackageUpdate) : SemVer :=
  let releaseType := getReleaseType (totalBumpLevel updates)
  if releaseType.isEmpty then rootVersion else inc rootVersion releaseType

/-- The aggregate changelog body built in the monorepo branch of `main`. -/
def monorepoBody (remote : String) (totalVersion : SemVer)
    (updates : List PackageUpdate) : String :=
  "\n## " ++ totalVersion.render ++ "\n" ++
    String.join (updates.map (fun u => renderChangelog remote u false))

/-- The output logic at the tail of `main` (src/index.ts lines 268-306):
in monorepo mode the release flag follows the aggregate release type; in
single-package mode the outputs are set unconditionally whenever exactly
one update exists. -/
def mainOutputs (remote : String) (isMonorepo : Bool) (rootVersion : SemVer)
    (updates : List PackageUpdate) : Outputs :=
  if isMonorepo then
    let releaseType := getReleaseType (totalBumpLevel updates)
    let totalVersion := rootNextVersion rootVersion updates
    if releaseType.isEmpty then { release := false, version := "", changelog := "" }
    else { release := true, version := totalVersion.render,
           changelog := monorepoBody remote totalVersion updates }
  else
    match updates with
    | [u] => { release := true, version := u.newVersion.render,
               changelog := renderChangelog remote u true }
    | _ => { release := false, version := "", changelog := "" }

/-! ## Changelog insertion (`updatePackageContent`, src/index.ts lines 233-247)

JS strings are modelled as character lists here, so that `split('\n')` and
`join('\n')` have directly reasoned-about counterparts. -/

/-- JS `str.split(sep)` for a one-character separator, on character lists:
`"".split` is `[""]`, and every separator occurrence opens a new piece. -/
def splitOnChar (sep : Char) : List Char → List (List Char)
  | [] => [[]]
  | c :: rest =>
    if c = sep then [] :: splitOnChar sep rest
    else
      match splitOnChar sep rest with
      | [] => [[c]]
      | piece :: pieces => (c :: piece) :: pieces

/-- JS `arr.join(sep)` for a one-character separator, on character lists. -/
def joinWithChar (sep : Char) : List (List Char) → List Char
  | [] => []
  | [p] => p
  | p :: q :: rest => p ++ sep :: joinWithChar sep (q :: rest)

/-- The changelog part of `updatePackageContent`: `existing` is the current
file content (`none` when CHANGELOG.md does not exist), `newChangelog` the
composed fragment; the result is the content written back, `none` when
nothing is written. Mirrors
`[...lines.slice(0, start), ...newChangelog.split('\n'), ...lines.slice(start)].join('\n')`. -/
def updateChangelogContent (existing : Option (List Char)) (newChangelog : List Char)
    (changelogStartIndex : Nat) : Option (List Char) :=
  match existing with
  | none => none
  | some changelog =>
    let changelogLines := splitOnChar '\n' changelog
    if newChangelog.isEmpty then none
    else some (joinWithChar '\n'
      (changelogLines.take changelogStartIndex ++ splitOnChar '\n' newChangelog ++
        changelogLines.drop changelogStartIndex))

/-! ## Observers and concrete scenarios used by the claims -/

/-- The resolved bump level recorded in the run cache for a package name. -/
def finalLevelOf (s : RState) (n : String) : Option Nat :=
  match lookupVisited s.visited n with
  | some (some u) => some u.bumpLevel
  | _ => none

/-- The dependency notes recorded in the run cache for a package name. -/
def depNotesOf (s : RState) (n : String) : Option (List DepReason) :=
  match lookupVisited s.visited n with
  | some (some u) => some u.reasons.deps
  | _ => none

/-- Scenario for C1: package "a" (own history: one breaking commit, Major)
depends on package "b" (own history: one feat commit, Minor). -/
def c1Env : CommitEnv := fun d =>
  if d = "dir-a" then [{ type := some "chore", header := some "BREAKING CHANGE: x", hash := some "h1" }]
  else if d = "dir-b" then [{ type := some "feat", subject := some "s", hash := some "h2" }]
  else []

/-- Package "a" of the C1 scenario ("ext" is not part of the run). -/
def c1A : PackageData :=
  { packageDir := "dir-a", name := "a", version := ⟨1, 0, 0⟩, dependencies := ["b", "ext"] }

/-- Package "b" of the C1 scenario. -/
def c1B : PackageData :=
  { packageDir := "dir-b", name := "b", version := ⟨2, 1, 3⟩, dependencies := [] }

/-- The C1 run state. -/
def c1State : RState := (calculatePackagesUpdate c1Env 3 [c1A, c1B]).getD default

/-- The C1 dictionary. -/
def c1Dict : String → Option PackageData := buildDict [c1A, c1B]

/-- The state right after the run has claimed the cache slot of "a". -/
def c1Claimed : RState := { visited := [("a", none)], updates := [], queries := [] }

/-- The result of `calculateBump` for "a" in the C1 scenario. -/
def c1Calc : PackageUpdate × RState :=
  (calculateBump (getPackageBump c1Env c1Dict 2) c1Env c1Dict c1A c1Claimed).getD default

/-- The collected dependency updates of "a" in the C1 scenario. -/
def c1Deps : List PackageUpdate × RState :=
  (resolveDeps (getPackageBump c1Env c1Dict 2) c1Dict c1A.dependencies
    { c1Claimed with queries := c1Claimed.queries ++ [c1A.name] }).getD default

/-- Scenario for C3: package "a" depends on package "b" whose own history is
one breaking commit, so "b" resolves to Major. -/
def c3Env : CommitEnv := fun d =>
  if d = "dir-b" then [{ type := some "chore", header := some "BREAKING CHANGE: y", hash := some "h3" }]
  else []

/-- Package "a" of the C3 scenario. -/
def c3A : PackageData :=
  { packageDir := "dir-a", name := "a", version := ⟨1, 0, 0⟩, dependencies := ["b"] }

/-- Package "b" of the C3 scenario. -/
def c3B : PackageData :=
  { packageDir := "dir-b", name := "b", version := ⟨0, 3, 0⟩, dependencies := [] }

/-- The C3 run state. -/
def c3State : RState := (calculatePackagesUpdate c3Env 3 [c3A, c3B]).getD default

/-- The C3 dictionary. -/
def c3Dict : String → Option PackageData := buildDict [c3A, c3B]

/-- The state right after the C3 run has claimed the cache slot of "a". -/
def c3Claimed : RState := { visited := [("a", none)], updates := [], queries := [] }

/-- The result of `calculateBump` for "a" in the C3 scenario. -/
def c3Calc : PackageUpdate × RState :=
  (calculateBump (getPackageBump c3Env c3Dict 2) c3Env c3Dict c3A c3Claimed).getD default

/-- The collected dependency updates of "a" in the C3 scenario. -/
def c3Deps : List PackageUpdate × RState :=
  (resolveDeps (getPackageBump c3Env c3Dict 2) c3Dict c3A.dependencies
    { c3Claimed with queries := c3Claimed.queries ++ [c3A.name] }).getD default

/-- Scenario for C2: a single-package run with zero qualifying commits. -/
def c2Env : CommitEnv := fun _ => []

/-- The single root package of the C2 scenario. -/
def c2Pkg : PackageData :=
  { packageDir := ".", name := "root", version := ⟨1, 2, 3⟩, dependencies := [] }

/-- The C2 run state. -/
def c2State : RState := (calculatePackagesUpdate c2Env 2 [c2Pkg]).getD default

/-- Scenario for C4's witness: a diamond — "a" and "b" both depend on "c". -/
def c4Env : CommitEnv := fun d =>
  if d = "dir-c" then [{ type := some "feat", subject := some "f", hash := some "h4" }] else []

/-- Package "a" of the diamond. -/
def c4A : PackageData :=
  { packageDir := "dir-a", name := "a", version := ⟨1, 0, 0⟩, dependencies := ["c"] }

/-- Package "b" of the diamond. -/
def c4B : PackageData :=
  { packageDir := "dir-b", name := "b", version := ⟨1, 0, 0⟩, dependencies := ["c"] }

/-- Package "c", the shared dependency of the diamond. -/
def c4C : PackageData :=
  { packageDir := "dir-c", name := "c", version := ⟨0, 1, 0⟩, dependencies := [] }

/-- The C4 run state. -/
def c4State : RState := (calculatePackagesUpdate c4Env 3 [c4A, c4B, c4C]).getD default

/-- Run invariant: the claimed cache keys are exactly the logged
own-commit-history queries, in order, and no name occurs twice. -/
def InvS (s : RState) : Prop :=
  s.visited.map Prod.fst = s.queries ∧ s.queries.Nodup

/-- Every existing cache binding survives a step unchanged (new bindings
may be appended; an in-flight slot is completed only by the call that
claimed it, on its way out). -/
def MonoV (v v2 : List (String × Option PackageUpdate)) : Prop :=
  ∀ n o, lookupVisited v n = some o → lookupVisited v2 n = some o

/-- A dependency resolver is good when, on success, it preserves the run
invariant, preserves every existing binding, and leaves its package
completed in the cache. -/
def GoodResolver (R : PackageData → RState → Option (PackageUpdate × RState)) : Prop :=
  ∀ pkg s u s2, InvS s → R pkg s = some (u, s2) →
    InvS s2 ∧ MonoV s.visited s2.visited ∧
      lookupVisited s2.visited pkg.name = some (some u)

/-! ## Basic facts about the commit classifier -/

/-- Whenever `whatBump` returns a populated suggestion, its buckets are the
three filters of the source and its deps list is empty. -/
theorem whatBump_reasons (cs : List CommitBase) (r : Reasons)
    (h : (whatBump cs).reasons = some r) :
    r.breakings = cs.filter isBreakingHeader ∧ r.feats = cs.filter isFeat ∧
      r.fixes = cs.filter isFixOrRefactor ∧ r.deps = [] := by
  simp only [whatBump] at h
  split at h
  · cases h; exact ⟨rfl, rfl, rfl, rfl⟩
  · split at h
    · cases h; exact ⟨rfl, rfl, rfl, rfl⟩
    · split at h
      · cases h; exact ⟨rfl, rfl, rfl, rfl⟩
      · cases h

/-- The own severity level suggested by `whatBump` never exceeds 3. -/
theorem whatBump_level_le (cs : List CommitBase) : (whatBump cs).level.getD 3 ≤ 3 := by
  simp only [whatBump]
  split
  · simp
  · split
    · simp
    · split <;> simp

/-- The deps bucket of a suggestion is always empty, also through the
`?? emptyReasons` fallback of `calculateBump`. -/
theorem whatBump_deps_nil (cs : List CommitBase) :
    ((whatBump cs).reasons.getD emptyReasons).deps = [] := by
  cases hr : (whatBump cs).reasons with
  | none => rfl
  | some r => simpa using (whatBump_reasons cs r hr).2.2.2

/-- C5 counterexample: the claim says a commit of declared type "patch"
lands in the fix bucket and alone yields severity Patch (level 2). In the
source the fix filter accepts only "fix" and "refactor", so a history whose
only commit has type "patch" matches nothing: `whatBump` returns the empty
suggestion, level `none` (severity None), not `some 2`. -/
theorem claim5_patch_type_counterexample :
    whatBump [{ type := some "patch" }] = { level := none, reasons := none } ∧
      ¬ (whatBump [{ type := some "patch" }]).level = some 2 := by
  exact ⟨rfl, by decide⟩

/-- C5 (amended): the fix bucket collects exactly the commits whose declared
type equals "fix" or "refactor" — "patch" is not recognized — and a commit
sequence in which every commit has type "patch" and no breaking header
yields severity None. -/
theorem claim5_fix_bucket (cs : List CommitBase) :
    (∀ r, (whatBump cs).reasons = some r →
      ∀ c, c ∈ r.fixes ↔ c ∈ cs ∧ (c.type = some "fix" ∨ c.type = some "refactor")) ∧
    ((∀ c ∈ cs, c.type = some "patch" ∧ isBreakingHeader c = false) →
      (whatBump cs).level = none) := by
  constructor
  · intro r hr c
    rw [(whatBump_reasons cs r hr).2.2.1, List.mem_filter]
    unfold isFixOrRefactor
    constructor
    · rintro ⟨hm, hp⟩
      refine ⟨hm, ?_⟩
      rcases Bool.or_eq_true _ _ |>.mp hp with h | h
      · exact Or.inl (by simpa using h)
      · exact Or.inr (by simpa using h)
    · rintro ⟨hm, hp | hp⟩
      · exact ⟨hm, by simp [hp]⟩
      · exact ⟨hm, by simp [hp]⟩
  · intro hall
    have hb : cs.any isBreakingHeader = false := by
      rw [List.any_eq_false]
      intro c hc
      simp [(hall c hc).2]
    have hf : cs.any isFeat = false := by
      rw [List.any_eq_false]
      intro c hc
      simp [isFeat, (hall c hc).1]
    have hx : cs.any isFixOrRefactor = false := by
      rw [List.any_eq_false]
      intro c hc
      simp [isFixOrRefactor, (hall c hc).1]
    simp [whatBump, hb, hf, hx]

/-- C5 amended witness at a concrete input: one "fix"-typed and one
"patch"-typed commit; the fix bucket holds exactly the "fix" one, and a
pure patch-typed history resolves to level `none`. -/
theorem claim5_fix_bucket_witness :
    ((whatBump [{ type := some "fix" }, { type := some "patch" }]).reasons =
        some { breakings := [], feats := [], fixes := [{ type := some "fix" }], deps := [] } ∧
      ({ type := some "fix" } ∈
        ({ breakings := [], feats := [], fixes := [{ type := some "fix" }],
           deps := [] } : Reasons).fixes ↔
        ({ type := some "fix" } : CommitBase) ∈
            [{ type := some "fix" }, ({ type := some "patch" } : CommitBase)] ∧
          (({ type := some "fix" } : CommitBase).type = some "fix" ∨
            ({ type := some "fix" } : CommitBase).type = some "refactor"))) ∧
      (whatBump [{ type := some "patch" }, { type := some "patch" }]).level = none := by
  refine ⟨⟨by decide, ?_⟩, ?_⟩
  · exact (claim5_fix_bucket [{ type := some "fix" }, { type := some "patch" }]).1 _
      (by decide) _
  · exact (claim5_fix_bucket [{ type := some "patch" }, { type := some "patch" }]).2
      (by decide)

/-- C6: own-severity resolution is first-match-wins: any breaking-marked
commit yields level 0 (Major) regardless of everything else; otherwise any
"feat" commit yields level 1 (Minor); otherwise any "fix"/"refactor" commit
yields level 2 (Patch); otherwise no level (severity None). -/
theorem claim6_first_match_wins (cs : List CommitBase) :
    ((∃ c ∈ cs, isBreakingHeader c = true) → (whatBump cs).level = some 0) ∧
    ((¬ ∃ c ∈ cs, isBreakingHeader c = true) → (∃ c ∈ cs, isFeat c = true) →
      (whatBump cs).level = some 1) ∧
    ((¬ ∃ c ∈ cs, isBreakingHeader c = true) → (¬ ∃ c ∈ cs, isFeat c = true) →
      (∃ c ∈ cs, isFixOrRefactor c = true) → (whatBump cs).level = some 2) ∧
    ((¬ ∃ c ∈ cs, isBreakingHeader c = true) → (¬ ∃ c ∈ cs, isFeat c = true) →
      (¬ ∃ c ∈ cs, isFixOrRefactor c = true) → (whatBump cs).level = none) := by
  refine ⟨?_, ?_, ?_, ?_⟩
  · intro hb
    simp [whatBump, List.any_eq_true.mpr hb]
  · intro hb hf
    have hb' : cs.any isBreakingHeader = false :=
      Bool.eq_false_iff.mpr (fun h => hb (List.any_eq_true.mp h))
    simp [whatBump, hb', List.any_eq_true.mpr hf]
  · intro hb hf hx
    have hb' : cs.any isBreakingHeader = false :=
      Bool.eq_false_iff.mpr (fun h => hb (List.any_eq_true.mp h))
    have hf' : cs.any isFeat = false :=
      Bool.eq_false_iff.mpr (fun h => hf (List.any_eq_true.mp h))
    simp [whatBump, hb', hf', List.any_eq_true.mpr hx]
  · intro hb hf hx
    have hb' : cs.any isBreakingHeader = false :=
      Bool.eq_false_iff.mpr (fun h => hb (List.any_eq_true.mp h))
    have hf' : cs.any isFeat = false :=
      Bool.eq_false_iff.mpr (fun h => hf (List.any_eq_true.mp h))
    have hx' : cs.any isFixOrRefactor = false :=
      Bool.eq_false_iff.mpr (fun h => hx (List.any_eq_true.mp h))
    simp [whatBump, hb', hf', hx']

/-- C6 witness: a single breaking-marked commit placed after a feature and a
fix commit still yields level 0 (Major). -/
theorem claim6_first_match_wins_witness :
    (∃ c ∈ [{ type := some "feat" }, { type := some "fix" },
        ({ type := some "chore", header := some "BREAKING CHANGE: x" } : CommitBase)],
      isBreakingHeader c = true) ∧
    (whatBump [{ type := some "feat" }, { type := some "fix" },
        { type := some "chore", header := some "BREAKING CHANGE: x" }]).level = some 0 := by
  refine ⟨?_, ?_⟩
  · exact ⟨{ type := some "chore", header := some "BREAKING CHANGE: x" }, by simp, by decide⟩
  · exact (claim6_first_match_wins _).1
      ⟨{ type := some "chore", header := some "BREAKING CHANGE: x" }, by simp, by decide⟩

/-- C7 counterexample: a commit whose declared type is "feat" and whose
header starts with the breaking marker is placed in BOTH the breaking and
the feature buckets — classification is not mutually exclusive. -/
theorem claim7_overlap_counterexample :
    ({ type := some "feat", header := some "BREAKING CHANGE: drop" } : CommitBase) ∈
        ((whatBump [{ type := some "feat", header := some "BREAKING CHANGE: drop" }]).reasons.getD
          emptyReasons).breakings ∧
      ({ type := some "feat", header := some "BREAKING CHANGE: drop" } : CommitBase) ∈
        ((whatBump [{ type := some "feat", header := some "BREAKING CHANGE: drop" }]).reasons.getD
          emptyReasons).feats := by
  have h : (whatBump [{ type := some "feat", header := some "BREAKING CHANGE: drop" }]).reasons.getD
      emptyReasons =
      { breakings := [{ type := some "feat", header := some "BREAKING CHANGE: drop" }],
        feats := [{ type := some "feat", header := some "BREAKING CHANGE: drop" }],
        fixes := [], deps := [] } := by decide
  rw [h]
  exact ⟨List.mem_singleton.mpr rfl, List.mem_singleton.mpr rfl⟩

/-- C7 (amended): only the type-driven buckets are mutually exclusive: no
commit is in both the feature and the fix bucket (their type predicates are
incompatible); the breaking bucket is filtered on the header independently
and may overlap either. -/
theorem claim7_feat_fix_disjoint (cs : List CommitBase) (r : Reasons)
    (h : (whatBump cs).reasons = some r) (c : CommitBase) :
    ¬ (c ∈ r.feats ∧ c ∈ r.fixes) := by
  rintro ⟨hf, hx⟩
  rw [(whatBump_reasons cs r h).2.1, List.mem_filter] at hf
  rw [(whatBump_reasons cs r h).2.2.1, List.mem_filter] at hx
  have h1 : c.type = some "feat" := by simpa [isFeat] using hf.2
  have h2 : c.type = some "fix" ∨ c.type = some "refactor" := by
    rcases Bool.or_eq_true _ _ |>.mp hx.2 with h | h
    · exact Or.inl (by simpa using h)
    · exact Or.inr (by simpa using h)
  rcases h2 with h2 | h2 <;> rw [h1] at h2 <;> simp at h2

/-! ## The changelog composer -/

/-- A string with a non-empty left part of an append is non-empty. -/
theorem append_len_pos (s t : String) (h : 0 < s.length) : 0 < (s ++ t).length := by
  rw [String.length_append]
  omega

/-- C8 counterexample: the claim says a reason set coming from a
refactor-only history renders to the empty string. The source has no
refactor bucket: a "refactor" commit is classified into `fixes`
(level 2), and the composed fragment is the non-empty "Bug Fixes" section. -/
theorem claim8_refactor_only_counterexample :
    (whatBump [{ type := some "refactor", subject := some "r", hash := some "h" }]).reasons =
      some { breakings := [], feats := [],
             fixes := [{ type := some "refactor", subject := some "r", hash := some "h" }],
             deps := [] } ∧
    renderChangelog "R"
        { pkg := { packageDir := ".", name := "p", version := ⟨1, 2, 3⟩, dependencies := [] },
          newVersion := ⟨1, 2, 4⟩, bumpLevel := 2,
          reasons := { breakings := [], feats := [],
                       fixes := [{ type := some "refactor", subject := some "r", hash := some "h" }],
                       deps := [] } } true =
      "## 1.2.4\n### Bug Fixes\n\n- r ([h](R/commit/h))\n" ∧
    ("## 1.2.4\n### Bug Fixes\n\n- r ([h](R/commit/h))\n" : String) ≠ "" := by
  refine ⟨by decide, rfl, by decide⟩

/-- C8 (amended): the composed fragment is the empty string exactly when the
breaking, feature, fix and dependency buckets are all empty; since
refactor-typed commits are classified into the fix bucket, a refactor-only
history produces a non-empty fragment. -/
theorem claim8_empty_changelog_iff (remote : String) (u : PackageUpdate) (d : Bool) :
    (renderChangelog remote u d = "" ↔
      u.reasons.breakings = [] ∧ u.reasons.deps = [] ∧ u.reasons.feats = [] ∧
        u.reasons.fixes = []) ∧
    (u.reasons.fixes ≠ [] → renderChangelog remote u d ≠ "") := by
  have hiff : renderChangelog remote u d = "" ↔
      u.reasons.breakings = [] ∧ u.reasons.deps = [] ∧ u.reasons.feats = [] ∧
        u.reasons.fixes = [] := by
    by_cases hall : (u.reasons.breakings.isEmpty && u.reasons.deps.isEmpty &&
        u.reasons.feats.isEmpty && u.reasons.fixes.isEmpty) = true
    · have hc := hall
      simp only [Bool.and_eq_true, List.isEmpty_iff] at hc
      constructor
      · intro _
        exact ⟨hc.1.1.1, hc.1.1.2, hc.1.2, hc.2⟩
      · intro _
        simp [renderChangelog, hall]
    · have hpos : 0 < (renderChangelog remote u d).length := by
        have hall' : (u.reasons.breakings.isEmpty && u.reasons.deps.isEmpty &&
            u.reasons.feats.isEmpty && u.reasons.fixes.isEmpty) = false :=
          Bool.eq_false_iff.mpr hall
        simp only [renderChangelog, hall', Bool.false_eq_true, if_false]
        repeat' first
          | apply append_len_pos
          | split
        all_goals decide
      constructor
      · intro he
        rw [he] at hpos
        simp at hpos
      · intro hc
        apply absurd hall
        simp only [not_not, Bool.and_eq_true, List.isEmpty_iff]
        exact ⟨⟨⟨hc.1, hc.2.1⟩, hc.2.2.1⟩, hc.2.2.2⟩
  refine ⟨hiff, ?_⟩
  intro hfix he
  exact hfix (hiff.mp he).2.2.2

/-- C8 amended witness: a fix-only reason set renders non-empty. -/
theorem claim8_empty_changelog_iff_witness :
    ({ breakings := [], feats := [],
       fixes := [{ type := some "fix", subject := some "s", hash := some "h" }],
       deps := [] } : Reasons).fixes ≠ [] ∧
    renderChangelog "R"
        { pkg := { packageDir := ".", name := "p", version := ⟨1, 0, 0⟩, dependencies := [] },
          newVersion := ⟨1, 0, 1⟩, bumpLevel := 2,
          reasons := { breakings := [], feats := [],
                       fixes := [{ type := some "fix", subject := some "s", hash := some "h" }],
                       deps := [] } } true ≠ "" := by
  refine ⟨by decide, ?_⟩
  exact (claim8_empty_changelog_iff "R" _ true).2 (by decide)

/-! ## Dependency propagation: capping and collection (C1, C3) -/

/-- C1 counterexample: the claim predicts that a package whose own commits
warrant Major and whose internal dependency resolved to Minor ends at most
at Patch (level 2), never Major. In the scenario `c1Env`/`c1A`/`c1B`, "a"
has own severity Major (level 0) and its dependency "b" resolves to Minor
(level 1, a bump), yet "a" resolves to Major (level 0):
`Math.min(ownLevel, 2)` on the numeric scale is severity-MAX against Patch,
not the claimed severity-min. -/
theorem claim1_dependency_cap_counterexample :
    (whatBump (c1Env "dir-a")).level = some 0 ∧
      finalLevelOf c1State "b" = some 1 ∧
      finalLevelOf c1State "a" = some 0 ∧
      some (0 : Nat) ≠ some 2 := by
  refine ⟨by decide, by decide, by decide, by decide⟩

/-- C1 (amended): when the dependency loop collected at least one internal
dependency update (the source collects every internal dependency, whatever
its severity), the final bump level is `min(own level, 2)` on the numeric
scale 0=Major..3=None — i.e. the final severity is the MORE severe of the
package's own severity and Patch: an own severity of None escalates to
Patch, while Minor and Major stand unchanged; with no internal dependency
the own level stands as is. -/
theorem claim1_dependency_floor
    (R : PackageData → RState → Option (PackageUpdate × RState)) (env : CommitEnv)
    (dict : String → Option PackageData) (pkg : PackageData) (s : RState)
    (u : PackageUpdate) (s' : RState) (dus : List PackageUpdate) (s2 : RState)
    (h : calculateBump R env dict pkg s = some (u, s'))
    (hd : resolveDeps R dict pkg.dependencies
      { s with queries := s.queries ++ [pkg.name] } = some (dus, s2)) :
    (dus ≠ [] → u.bumpLevel = Nat.min ((whatBump (env pkg.packageDir)).level.getD 3) 2) ∧
    (dus = [] → u.bumpLevel = (whatBump (env pkg.packageDir)).level.getD 3) := by
  simp only [calculateBump] at h
  rw [hd] at h
  cases h
  constructor
  · intro hne
    cases dus with
    | nil => exact absurd rfl hne
    | cons d ds => simp
  · intro hnil
    subst hnil
    simpa using Nat.min_eq_left (whatBump_level_le (env pkg.packageDir))

/-- C1 amended witness: in the concrete scenario, "a" collected one
dependency update and its bump level is `min(own, 2)`. -/
theorem claim1_dependency_floor_witness :
    c1Deps.1 ≠ [] ∧
      c1Calc.1.bumpLevel = Nat.min ((whatBump (c1Env c1A.packageDir)).level.getD 3) 2 := by
  refine ⟨by decide, ?_⟩
  exact (claim1_dependency_floor (getPackageBump c1Env c1Dict 2) c1Env c1Dict c1A c1Claimed
    c1Calc.1 c1Calc.2 c1Deps.1 c1Deps.2 (by decide) (by decide)).1 (by decide)

/-- C3 counterexample: the claim says an internal dependency resolving to
Major is NOT collected as a dependency note. In the scenario
`c3Env`/`c3A`/`c3B`, "b" resolves to Major (level 0) and is nevertheless
recorded in "a"'s deps bucket as a "major" note — the source collects every
internal dependency without looking at its severity. -/
theorem claim3_major_dep_collected_counterexample :
    finalLevelOf c3State "b" = some 0 ∧
      depNotesOf c3State "a" = some [{ name := "b", releaseType := "major" }] ∧
      some [{ name := "b", releaseType := "major" : DepReason }] ≠
        some ([] : List DepReason) := by
  refine ⟨by decide, by decide, by decide⟩

/-- C3 (amended): the deps bucket of a resolved package lists EVERY
collected internal dependency, in order, each with the release type of its
resolved level ("major" included, and the empty string for a dependency
that did not bump) — no filtering on the dependency's severity occurs. -/
theorem claim3_all_deps_collected
    (R : PackageData → RState → Option (PackageUpdate × RState)) (env : CommitEnv)
    (dict : String → Option PackageData) (pkg : PackageData) (s : RState)
    (u : PackageUpdate) (s' : RState) (dus : List PackageUpdate) (s2 : RState)
    (h : calculateBump R env dict pkg s = some (u, s'))
    (hd : resolveDeps R dict pkg.dependencies
      { s with queries := s.queries ++ [pkg.name] } = some (dus, s2)) :
    u.reasons.deps = dus.map
      (fun d => { name := d.pkg.name, releaseType := getReleaseType d.bumpLevel }) := by
  simp only [calculateBump] at h
  rw [hd] at h
  cases h
  cases dus with
  | nil => simpa using whatBump_deps_nil (env pkg.packageDir)
  | cons d ds => simpa using whatBump_deps_nil (env pkg.packageDir)

/-- C3 amended witness: in the concrete scenario, "a"'s deps bucket equals
the map over its collected dependency updates. -/
theorem claim3_all_deps_collected_witness :
    c3Calc.1.reasons.deps = c3Deps.1.map
      (fun d => { name := d.pkg.name, releaseType := getReleaseType d.bumpLevel }) :=
  claim3_all_deps_collected (getPackageBump c3Env c3Dict 2) c3Env c3Dict c3A c3Claimed
    c3Calc.1 c3Calc.2 c3Deps.1 c3Deps.2 (by decide) (by decide)

/-! ## Run outputs (C2, C10) -/

/-- C2: evaluation of the code at the failing input. In a single-package
run with zero qualifying commits, the sole update has level 3 (severity
None), yet the single-package output branch fires unconditionally on
`updates.length === 1`: the release flag is `true` and the version output
is the unchanged current version — contradicting the claim (and the
repository README, which documents `release` as false when no fix, feat or
BREAKING CHANGE is present). -/
theorem claim2_single_package_release_flag :
    c2State.updates.map (fun u => u.bumpLevel) = [3] ∧
      mainOutputs "R" false ⟨1, 2, 3⟩ c2State.updates =
        { release := true, version := "1.2.3", changelog := "" } := by
  refine ⟨by decide, by decide⟩

/-- `Nat.min` unfolded to its conditional form. -/
theorem natMin_ite (a b : Nat) : Nat.min a b = if a ≤ b then a else b := rfl

/-- The fold implementing `Math.min(...levels)` is a lower bound of the
levels. -/
theorem foldr_min_le_mem (l : List Nat) : ∀ x ∈ l, l.foldr Nat.min 3 ≤ x := by
  induction l with
  | nil => simp
  | cons a t ih =>
    intro x hx
    simp only [List.foldr_cons]
    rcases List.mem_cons.mp hx with rfl | hx
    · exact Nat.min_le_left _ _
    · exact le_trans (Nat.min_le_right _ _) (ih x hx)

/-- The fold implementing `Math.min(...levels)` is attained on a non-empty
list of levels that are all at most 3. -/
theorem foldr_min_attained (l : List Nat) (hne : l ≠ []) (h3 : ∀ x ∈ l, x ≤ 3) :
    l.foldr Nat.min 3 ∈ l := by
  induction l with
  | nil => exact absurd rfl hne
  | cons a t ih =>
    simp only [List.foldr_cons]
    cases t with
    | nil =>
      simp only [List.foldr_nil]
      rw [natMin_ite]
      split
      · exact List.mem_cons_self a []
      · next hcon => exact absurd (h3 a (by simp)) hcon
    | cons b t2 =>
      have ht : (b :: t2).foldr Nat.min 3 ∈ b :: t2 :=
        ih (by simp) (fun x hx => h3 x (List.mem_cons_of_mem _ hx))
      rw [natMin_ite]
      split
      · exact List.mem_cons_self _ _
      · exact List.mem_cons_of_mem _ ht

/-- `getReleaseType` yields the empty string exactly for levels above 2. -/
theorem getReleaseType_empty_iff (n : Nat) : (getReleaseType n).isEmpty = true ↔ 3 ≤ n := by
  match n with
  | 0 => exact ⟨fun h => absurd h (by decide), fun h => by omega⟩
  | 1 => exact ⟨fun h => absurd h (by decide), fun h => by omega⟩
  | 2 => exact ⟨fun h => absurd h (by decide), fun h => by omega⟩
  | n + 3 => exact ⟨fun _ => by omega, fun _ => rfl⟩

/-- C10: in a monorepo run the root next version applies the most severe
bump level found among the resolved updates — the numeric minimum on the
scale 0=major, 1=minor, 2=patch — to the root manifest version, and the
root version is left unchanged when every package resolved to no bump. -/
theorem claim10_root_version (root : SemVer) (updates : List PackageUpdate)
    (hne : updates ≠ []) (h3 : ∀ u ∈ updates, u.bumpLevel ≤ 3) :
    (∀ u ∈ updates, totalBumpLevel updates ≤ u.bumpLevel) ∧
    (∃ u ∈ updates, u.bumpLevel = totalBumpLevel updates) ∧
    (totalBumpLevel updates ≤ 2 →
      rootNextVersion root updates = inc root (getReleaseType (totalBumpLevel updates))) ∧
    ((∀ u ∈ updates, u.bumpLevel = 3) → rootNextVersion root updates = root) := by
  refine ⟨?_, ?_, ?_, ?_⟩
  · intro u hu
    exact foldr_min_le_mem _ _ (List.mem_map_of_mem _ hu)
  · have hmem : (updates.map (fun u => u.bumpLevel)).foldr Nat.min 3 ∈
        updates.map (fun u => u.bumpLevel) := by
      refine foldr_min_attained _ ?_ ?_
      · simpa using hne
      · intro x hx
        rcases List.mem_map.mp hx with ⟨u, hu, rfl⟩
        exact h3 u hu
    rcases List.mem_map.mp hmem with ⟨u, hu, he⟩
    exact ⟨u, hu, he⟩
  · intro h2
    have hemp : (getReleaseType (totalBumpLevel updates)).isEmpty = false := by
      rw [Bool.eq_false_iff]
      intro hc
      have := (getReleaseType_empty_iff _).mp hc
      omega
    simp [rootNextVersion, hemp]
  · intro hall
    have h33 : totalBumpLevel updates = 3 := by
      unfold totalBumpLevel
      have : ∀ l : List Nat, (∀ x ∈ l, x = 3) → l.foldr Nat.min 3 = 3 := by
        intro l
        induction l with
        | nil => intro _; rfl
        | cons a t ih =>
          intro hl
          rw [List.foldr_cons, ih (fun x hx => hl x (List.mem_cons_of_mem _ hx)),
            hl a (List.mem_cons_self _ _)]
          decide
      refine this _ ?_
      intro x hx
      rcases List.mem_map.mp hx with ⟨u, hu, rfl⟩
      exact hall u hu
    have hev : (("" : String).isEmpty = true) := rfl
    simp [rootNextVersion, h33, getReleaseType, hev]

/-- C10 witness: one update at level 1 (minor); the root version is bumped
with the release type of the aggregated level. -/
theorem claim10_root_version_witness :
    (([{ pkg := { packageDir := ".", name := "p", version := ⟨1, 0, 0⟩, dependencies := [] },
         newVersion := ⟨1, 1, 0⟩, bumpLevel := 1,
         reasons := { breakings := [], feats := [], fixes := [], deps := [] } }] :
        List PackageUpdate) ≠ []) ∧
      rootNextVersion ⟨1, 2, 3⟩
          [{ pkg := { packageDir := ".", name := "p", version := ⟨1, 0, 0⟩, dependencies := [] },
             newVersion := ⟨1, 1, 0⟩, bumpLevel := 1,
             reasons := { breakings := [], feats := [], fixes := [], deps := [] } }] =
        inc ⟨1, 2, 3⟩ (getReleaseType (totalBumpLevel
          [{ pkg := { packageDir := ".", name := "p", version := ⟨1, 0, 0⟩, dependencies := [] },
             newVersion := ⟨1, 1, 0⟩, bumpLevel := 1,
             reasons := { breakings := [], feats := [], fixes := [], deps := [] } }])) := by
  refine ⟨by decide, ?_⟩
  exact (claim10_root_version ⟨1, 2, 3⟩ _ (by decide) (by decide)).2.2.1 (by decide)

/-! ## Changelog insertion round-trips (C9) -/

/-- `split` never returns an empty piece list. -/
theorem splitOnChar_ne_nil (sep : Char) (l : List Char) : splitOnChar sep l ≠ [] := by
  induction l with
  | nil => simp [splitOnChar]
  | cons c rest ih =>
    unfold splitOnChar
    by_cases h : c = sep
    · simp [h]
    · rw [if_neg h]
      rcases hsp : splitOnChar sep rest with _ | ⟨p, ps⟩ <;> simp

/-- Joining the pieces of a split restores the original character list
(JS `str.split(sep).join(sep) === str`). -/
theorem joinWithChar_splitOnChar (sep : Char) (l : List Char) :
    joinWithChar sep (splitOnChar sep l) = l := by
  induction l with
  | nil => rfl
  | cons c rest ih =>
    unfold splitOnChar
    by_cases h : c = sep
    · rw [if_pos h]
      rcases hsp : splitOnChar sep rest with _ | ⟨p, ps⟩
      · exact absurd hsp (splitOnChar_ne_nil sep rest)
      · rw [hsp] at ih
        show joinWithChar sep ([] :: p :: ps) = c :: rest
        simp only [joinWithChar, List.nil_append]
        rw [ih, h]
    · rw [if_neg h]
      rcases hsp : splitOnChar sep rest with _ | ⟨p, ps⟩
      · exact absurd hsp (splitOnChar_ne_nil sep rest)
      · rw [hsp] at ih
        simp only [hsp]
        cases ps with
        | nil =>
          simp only [joinWithChar] at ih ⊢
          rw [ih]
        | cons q qs =>
          simp only [joinWithChar] at ih ⊢
          rw [List.cons_append, ih]

/-- No piece of a split contains the separator. -/
theorem splitOnChar_sep_free (sep : Char) (l : List Char) :
    ∀ p ∈ splitOnChar sep l, sep ∉ p := by
  induction l with
  | nil =>
    intro p hp
    simp [splitOnChar] at hp
    simp [hp]
  | cons c rest ih =>
    intro p hp
    unfold splitOnChar at hp
    by_cases h : c = sep
    · rw [if_pos h] at hp
      rcases List.mem_cons.mp hp with rfl | hp
      · simp
      · exact ih p hp
    · rw [if_neg h] at hp
      rcases hsp : splitOnChar sep rest with _ | ⟨q, qs⟩
      · rw [hsp] at hp
        simp only [List.mem_singleton] at hp
        subst hp
        simp only [List.mem_singleton]
        exact fun e => h e.symm
      · rw [hsp] at hp
        rcases List.mem_cons.mp hp with rfl | hp
        · have hq : sep ∉ q := ih q (by rw [hsp]; exact List.mem_cons_self _ _)
          intro hm
          rcases List.mem_cons.mp hm with e | hm
          · exact h e.symm
          · exact hq hm
        · exact ih p (by rw [hsp]; exact List.mem_cons_of_mem _ hp)

/-- Splitting a separator-free character list yields that single piece. -/
theorem splitOnChar_of_sep_free (sep : Char) (p : List Char) (h : sep ∉ p) :
    splitOnChar sep p = [p] := by
  induction p with
  | nil => rfl
  | cons c cp ih =>
    have hc : ¬ c = sep := by
      intro e
      exact h (by rw [← e]; exact List.mem_cons_self c cp)
    unfold splitOnChar
    rw [if_neg hc, ih (fun hm => h (List.mem_cons_of_mem _ hm))]

/-- Splitting `p ++ sep :: t` for separator-free `p` peels off `p`. -/
theorem splitOnChar_append_sep (sep : Char) (p t : List Char) (h : sep ∉ p) :
    splitOnChar sep (p ++ sep :: t) = p :: splitOnChar sep t := by
  induction p with
  | nil => simp [splitOnChar]
  | cons c cp ih =>
    have hc : ¬ c = sep := by
      intro e
      exact h (by rw [← e]; exact List.mem_cons_self c cp)
    have ih' := ih (fun hm => h (List.mem_cons_of_mem _ hm))
    rw [List.cons_append]
    conv_lhs => unfold splitOnChar
    rw [if_neg hc, ih']

/-- Splitting the join of non-empty, separator-free pieces restores the
pieces (JS `arr.join(sep).split(sep)` for line arrays). -/
theorem splitOnChar_joinWithChar (sep : Char) (ls : List (List Char)) (hne : ls ≠ [])
    (hfree : ∀ p ∈ ls, sep ∉ p) : splitOnChar sep (joinWithChar sep ls) = ls := by
  induction ls with
  | nil => exact absurd rfl hne
  | cons p rest ih =>
    cases rest with
    | nil => simpa [joinWithChar] using splitOnChar_of_sep_free sep p (hfree p (by simp))
    | cons q qs =>
      simp only [joinWithChar]
      rw [splitOnChar_append_sep sep p _ (hfree p (by simp))]
      rw [ih (by simp) (fun x hx => hfree x (List.mem_cons_of_mem _ hx))]

/-- C9: changelog insertion. Writing a non-empty fragment at line offset `k`
keeps every pre-existing line verbatim — the first `k` lines before the
fragment's lines, the remaining lines after them, together all of the
original lines — and nothing is written when the fragment is empty or the
changelog file does not exist; two successive offset-0 insertions stack the
two fragments' lines above the original lines without altering them. -/
theorem claim9_changelog_insertion (c f f1 f2 : List Char) (k : Nat)
    (hf : f ≠ []) (h1 : f1 ≠ []) (h2 : f2 ≠ []) :
    updateChangelogContent none f k = none ∧
    updateChangelogContent (some c) [] k = none ∧
    (∀ r, updateChangelogContent (some c) f k = some r →
      splitOnChar '\n' r =
        (splitOnChar '\n' c).take k ++ splitOnChar '\n' f ++ (splitOnChar '\n' c).drop k ∧
      (splitOnChar '\n' c).take k ++ (splitOnChar '\n' c).drop k = splitOnChar '\n' c) ∧
    (∀ r, (updateChangelogContent (some c) f1 0).bind
        (fun c1 => updateChangelogContent (some c1) f2 0) = some r →
      splitOnChar '\n' r = splitOnChar '\n' f2 ++ splitOnChar '\n' f1 ++ splitOnChar '\n' c) := by
  have hsplit : ∀ (x r : List Char) (j : Nat), x ≠ [] →
      updateChangelogContent (some r) x j = some (joinWithChar '\n'
        ((splitOnChar '\n' r).take j ++ splitOnChar '\n' x ++ (splitOnChar '\n' r).drop j)) := by
    intro x r j hx
    have hxe : x.isEmpty = false := by
      cases x with
      | nil => exact absurd rfl hx
      | cons a t => rfl
    simp [updateChangelogContent, hxe]
  have hround : ∀ (r : List Char) (pre post : List (List Char)),
      (∀ p ∈ pre, '\n' ∉ p) → (∀ p ∈ post, '\n' ∉ p) →
      splitOnChar '\n' (joinWithChar '\n' (pre ++ splitOnChar '\n' r ++ post)) =
        pre ++ splitOnChar '\n' r ++ post := by
    intro r pre post hpre hpost
    refine splitOnChar_joinWithChar '\n' _ ?_ ?_
    · intro he
      rcases List.append_eq_nil.mp he with ⟨he1, -⟩
      rcases List.append_eq_nil.mp he1 with ⟨-, he2⟩
      exact splitOnChar_ne_nil '\n' r he2
    · intro p hp
      rcases List.mem_append.mp hp with hp | hp
      · rcases List.mem_append.mp hp with hp | hp
        · exact hpre p hp
        · exact splitOnChar_sep_free '\n' r p hp
      · exact hpost p hp
  refine ⟨rfl, rfl, ?_, ?_⟩
  · intro r hr
    rw [hsplit f c k hf] at hr
    cases hr
    constructor
    · exact hround f _ _
        (fun p hp => splitOnChar_sep_free '\n' c p (List.take_subset _ _ hp))
        (fun p hp => splitOnChar_sep_free '\n' c p (List.drop_subset _ _ hp))
    · exact List.take_append_drop k (splitOnChar '\n' c)
  · intro r hr
    rw [hsplit f1 c 0] at hr
    · simp only [List.take_zero, List.drop_zero, List.nil_append, Option.some_bind] at hr
      rw [hsplit f2 _ 0 h2] at hr
      cases hr
      simp only [List.take_zero, List.drop_zero, List.nil_append]
      have hr1 : splitOnChar '\n' (joinWithChar '\n' (splitOnChar '\n' f1 ++ splitOnChar '\n' c)) =
          splitOnChar '\n' f1 ++ splitOnChar '\n' c := by
        have := hround c (splitOnChar '\n' f1) []
          (fun p hp => splitOnChar_sep_free '\n' f1 p hp) (by simp)
        simpa using this
      rw [hr1]
      have := hround c (splitOnChar '\n' f2 ++ splitOnChar '\n' f1) []
        (fun p hp => by
          rcases List.mem_append.mp hp with hp | hp
          · exact splitOnChar_sep_free '\n' f2 p hp
          · exact splitOnChar_sep_free '\n' f1 p hp)
        (by simp)
      simpa [List.append_assoc] using this
    · exact h1

/-- C9 witness: inserting "P" then "Q" at offset 0 into the two-line content
"O\nL" stacks the fragments above the untouched original lines. -/
theorem claim9_changelog_insertion_witness :
    ((['N'] : List Char) ≠ []) ∧
    ((updateChangelogContent (some ['O', '\n', 'L']) ['P'] 0).bind
        (fun c1 => updateChangelogContent (some c1) ['Q'] 0) =
      some ['Q', '\n', 'P', '\n', 'O', '\n', 'L']) ∧
    splitOnChar '\n' ['Q', '\n', 'P', '\n', 'O', '\n', 'L'] =
      splitOnChar '\n' ['Q'] ++ splitOnChar '\n' ['P'] ++ splitOnChar '\n' ['O', '\n', 'L'] := by
  refine ⟨by decide, by decide, ?_⟩
  exact (claim9_changelog_insertion ['O', '\n', 'L'] ['N'] ['P'] ['Q'] 0
    (by decide) (by decide) (by decide)).2.2.2 _ (by decide)

/-- C7 amended witness: at a concrete two-commit history the feature commit
is not simultaneously in the fix bucket. -/
theorem claim7_feat_fix_disjoint_witness :
    ¬ (({ type := some "feat" } : CommitBase) ∈
          ({ breakings := [], feats := [{ type := some "feat" }],
             fixes := [{ type := some "fix" }], deps := [] } : Reasons).feats ∧
        ({ type := some "feat" } : CommitBase) ∈
          ({ breakings := [], feats := [{ type := some "feat" }],
             fixes := [{ type := some "fix" }], deps := [] } : Reasons).fixes) :=
  claim7_feat_fix_disjoint [{ type := some "feat" }, { type := some "fix" }] _
    (by decide) _

/-! ## Memoization: each package is resolved and queried at most once (C4) -/

/-- Cache lookup fails exactly off the key set. -/
theorem lookupVisited_eq_none (l : List (String × Option PackageUpdate)) (n : String) :
    lookupVisited l n = none ↔ n ∉ l.map Prod.fst := by
  induction l with
  | nil => simp [lookupVisited]
  | cons kv rest ih =>
    obtain ⟨k, v⟩ := kv
    simp only [lookupVisited, List.map_cons, List.mem_cons]
    by_cases h : k = n
    · subst h
      simp
    · rw [if_neg h]
      simp only [ih]
      constructor
      · intro hn
        rintro (e | hm)
        · exact h e.symm
        · exact hn hm
      · intro hn hm
        exact hn (Or.inr hm)

/-- Lookups survive appending bindings on the right. -/
theorem lookupVisited_append (l l2 : List (String × Option PackageUpdate)) (n : String)
    (o : Option PackageUpdate) (h : lookupVisited l n = some o) :
    lookupVisited (l ++ l2) n = some o := by
  induction l with
  | nil => cases h
  | cons kv rest ih =>
    obtain ⟨k, v⟩ := kv
    rw [List.cons_append]
    simp only [lookupVisited] at h ⊢
    by_cases hk : k = n
    · rw [if_pos hk] at h ⊢
      exact h
    · rw [if_neg hk] at h ⊢
      exact ih h

/-- A binding appended for an absent key is found. -/
theorem lookupVisited_append_fresh (l : List (String × Option PackageUpdate)) (n : String)
    (v : Option PackageUpdate) (h : lookupVisited l n = none) :
    lookupVisited (l ++ [(n, v)]) n = some v := by
  induction l with
  | nil => simp [lookupVisited]
  | cons kv rest ih =>
    obtain ⟨k, w⟩ := kv
    rw [List.cons_append]
    simp only [lookupVisited] at h ⊢
    by_cases hk : k = n
    · rw [if_pos hk] at h
      cases h
    · rw [if_neg hk] at h ⊢
      exact ih h

/-- Completing a slot does not touch other keys. -/
theorem lookupVisited_setVisited_ne (l : List (String × Option PackageUpdate))
    (n : String) (u : PackageUpdate) (m : String) (h : ¬ n = m) :
    lookupVisited (setVisited l n u) m = lookupVisited l m := by
  induction l with
  | nil => rfl
  | cons kv rest ih =>
    obtain ⟨k, w⟩ := kv
    simp only [setVisited]
    by_cases hk : k = n
    · rw [if_pos hk]
      simp only [lookupVisited]
      rw [if_neg (by rw [hk]; exact h), if_neg (by rw [hk]; exact h)]
    · rw [if_neg hk]
      simp only [lookupVisited]
      by_cases hm : k = m
      · rw [if_pos hm, if_pos hm]
      · rw [if_neg hm, if_neg hm]
        exact ih

/-- Completing a present slot stores the completed update. -/
theorem lookupVisited_setVisited_self (l : List (String × Option PackageUpdate))
    (n : String) (u : PackageUpdate) (o : Option PackageUpdate)
    (h : lookupVisited l n = some o) :
    lookupVisited (setVisited l n u) n = some (some u) := by
  induction l with
  | nil => cases h
  | cons kv rest ih =>
    obtain ⟨k, w⟩ := kv
    simp only [lookupVisited, setVisited] at h ⊢
    by_cases hk : k = n
    · rw [if_pos hk]
      simp only [lookupVisited]
      rw [if_pos hk]
    · rw [if_neg hk] at h ⊢
      simp only [lookupVisited]
      rw [if_neg hk]
      exact ih h

/-- Completing a slot keeps the key list. -/
theorem setVisited_map_fst (l : List (String × Option PackageUpdate))
    (n : String) (u : PackageUpdate) :
    (setVisited l n u).map Prod.fst = l.map Prod.fst := by
  induction l with
  | nil => rfl
  | cons kv rest ih =>
    obtain ⟨k, w⟩ := kv
    simp only [setVisited]
    by_cases hk : k = n
    · rw [if_pos hk]
      simp
    · rw [if_neg hk]
      simp [ih]

/-- `MonoV` is reflexive. -/
theorem monoV_refl (v : List (String × Option PackageUpdate)) : MonoV v v :=
  fun _ _ h => h

/-- `MonoV` composes. -/
theorem monoV_trans {a b c : List (String × Option PackageUpdate)}
    (h1 : MonoV a b) (h2 : MonoV b c) : MonoV a c :=
  fun n o h => h2 n o (h1 n o h)

/-- The dependency loop of `calculateBump` preserves the invariant and all
existing bindings when driven by a good resolver. -/
theorem resolveDeps_good (R : PackageData → RState → Option (PackageUpdate × RState))
    (dict : String → Option PackageData) (hR : GoodResolver R) :
    ∀ (deps : List String) (s : RState) (dus : List PackageUpdate) (s2 : RState), InvS s →
      resolveDeps R dict deps s = some (dus, s2) →
      InvS s2 ∧ MonoV s.visited s2.visited := by
  intro deps
  induction deps with
  | nil =>
    intro s dus s2 hs h
    simp only [resolveDeps] at h
    cases h
    exact ⟨hs, monoV_refl _⟩
  | cons d rest ih =>
    intro s dus s2 hs h
    simp only [resolveDeps] at h
    split at h
    · exact ih s dus s2 hs h
    · next lp hd =>
      split at h
      · cases h
      · next u s1 hres =>
        obtain ⟨hs1, hm1, -⟩ := hR lp s u s1 hs hres
        split at h
        · cases h
        · next us s2x hrest =>
          cases h
          obtain ⟨hs2, hm2⟩ := ih s1 _ _ hs1 hrest
          exact ⟨hs2, monoV_trans hm1 hm2⟩

/-- `calculateBump` preserves the invariant and all existing bindings when
driven by a good resolver; its query log entry is accounted for by the
invariant hypothesis on the post-query state. -/
theorem calculateBump_good (R : PackageData → RState → Option (PackageUpdate × RState))
    (env : CommitEnv) (dict : String → Option PackageData) (hR : GoodResolver R)
    (pkg : PackageData) (s : RState) (u : PackageUpdate) (s2 : RState)
    (hs : InvS { s with queries := s.queries ++ [pkg.name] })
    (h : calculateBump R env dict pkg s = some (u, s2)) :
    InvS s2 ∧ MonoV s.visited s2.visited := by
  simp only [calculateBump] at h
  cases hd : resolveDeps R dict pkg.dependencies
      { s with queries := s.queries ++ [pkg.name] } with
  | none =>
    rw [hd] at h
    cases h
  | some dss =>
    obtain ⟨dus, s2x⟩ := dss
    rw [hd] at h
    cases h
    exact resolveDeps_good R dict hR pkg.dependencies
      { s with queries := s.queries ++ [pkg.name] } _ _ hs hd

/-- `getPackageBump` is a good resolver at every fuel: on success the run
invariant holds, every pre-existing binding is unchanged, and the demanded
package sits completed in the cache — the cache-hit branch returns the
stored result without any new query. -/
theorem getPackageBump_good (env : CommitEnv) (dict : String → Option PackageData) :
    ∀ fuel, GoodResolver (getPackageBump env dict fuel) := by
  intro fuel
  induction fuel with
  | zero =>
    intro pkg s u s2 hs h
    simp only [getPackageBump] at h
    cases hl : lookupVisited s.visited pkg.name with
    | none =>
      rw [hl] at h
      cases h
    | some o =>
      cases o with
      | none =>
        rw [hl] at h
        cases h
      | some v =>
        rw [hl] at h
        cases h
        exact ⟨hs, monoV_refl _, hl⟩
  | succ fuel ih =>
    intro pkg s u s2 hs h
    simp only [getPackageBump] at h
    cases hl : lookupVisited s.visited pkg.name with
    | some o =>
      cases o with
      | some v =>
        rw [hl] at h
        cases h
        exact ⟨hs, monoV_refl _, hl⟩
      | none =>
        rw [hl] at h
        cases h
    | none =>
      rw [hl] at h
      cases hc : calculateBump (getPackageBump env dict fuel) env dict pkg
          { s with visited := s.visited ++ [(pkg.name, none)] } with
      | none =>
        rw [hc] at h
        cases h
      | some us2 =>
        obtain ⟨u2, s2x⟩ := us2
        rw [hc] at h
        cases h
        have hnm : pkg.name ∉ s.visited.map Prod.fst := (lookupVisited_eq_none _ _).mp hl
        have hnq : pkg.name ∉ s.queries := by
          rw [← hs.1]
          exact hnm
        have hpre : InvS ⟨s.visited ++ [(pkg.name, none)], s.updates,
            s.queries ++ [pkg.name]⟩ := by
          constructor
          · show (s.visited ++ [(pkg.name, none)]).map Prod.fst = s.queries ++ [pkg.name]
            rw [List.map_append, hs.1]
            rfl
          · show (s.queries ++ [pkg.name]).Nodup
            rw [List.nodup_append]
            refine ⟨hs.2, List.nodup_singleton _, ?_⟩
            intro x hx hx2
            rw [List.mem_singleton] at hx2
            subst hx2
            exact hnq hx
        obtain ⟨hs2x, hm2x⟩ := calculateBump_good _ env dict ih pkg
          { s with visited := s.visited ++ [(pkg.name, none)] } u s2x hpre hc
        have hin1 : lookupVisited (s.visited ++ [(pkg.name, none)]) pkg.name = some none :=
          lookupVisited_append_fresh s.visited pkg.name none hl
        have hin2 : lookupVisited s2x.visited pkg.name = some none := hm2x pkg.name none hin1
        refine ⟨⟨?_, hs2x.2⟩, ?_, ?_⟩
        · show (setVisited s2x.visited pkg.name u).map Prod.fst = s2x.queries
          rw [setVisited_map_fst]
          exact hs2x.1
        · intro n o ho
          have h1 : lookupVisited (s.visited ++ [(pkg.name, none)]) n = some o :=
            lookupVisited_append _ _ _ _ ho
          have h2 := hm2x n o h1
          have hne : ¬ pkg.name = n := by
            intro e
            subst e
            rw [hl] at ho
            cases ho
          show lookupVisited (setVisited s2x.visited pkg.name u) n = some o
          rw [lookupVisited_setVisited_ne _ _ _ _ hne]
          exact h2
        · exact lookupVisited_setVisited_self s2x.visited pkg.name u none hin2

/-- The driver loop leaves every demanded package completed in the cache
while preserving the invariant. -/
theorem runLoop_good (env : CommitEnv) (dict : String → Option PackageData) (fuel : Nat) :
    ∀ (packs : List PackageData) (s s2 : RState), InvS s →
      runLoop env dict fuel packs s = some s2 →
      InvS s2 ∧ MonoV s.visited s2.visited ∧
        ∀ p ∈ packs, ∃ u, lookupVisited s2.visited p.name = some (some u) := by
  intro packs
  induction packs with
  | nil =>
    intro s s2 hs h
    simp only [runLoop] at h
    cases h
    exact ⟨hs, monoV_refl _, by simp⟩
  | cons p rest ih =>
    intro s s2 hs h
    simp only [runLoop] at h
    cases hg : getPackageBump env dict fuel p s with
    | none =>
      rw [hg] at h
      cases h
    | some us1 =>
      obtain ⟨u, s1⟩ := us1
      rw [hg] at h
      obtain ⟨hs1, hm1, hl1⟩ := getPackageBump_good env dict fuel p s u s1 hs hg
      obtain ⟨hs2, hm2, hall⟩ := ih s1 s2 hs1 h
      refine ⟨hs2, monoV_trans hm1 hm2, ?_⟩
      intro q hq
      rcases List.mem_cons.mp hq with rfl | hq
      · exact ⟨u, hm2 _ _ hl1⟩
      · exact hall q hq

/-- C4: in every resolution run that completes, each package's
own-commit-history query ran exactly once — also under diamond dependencies
— exactly one completed BumpResult is cached per demanded package, and any
further demand returns the cached result with the state untouched. -/
theorem claim4_memoized_once (env : CommitEnv) (fuel : Nat) (packages : List PackageData)
    (s : RState) (h : calculatePackagesUpdate env fuel packages = some s) :
    s.queries.Nodup ∧
    (∀ p ∈ packages, s.queries.count p.name = 1 ∧
      ∃ u, lookupVisited s.visited p.name = some (some u)) ∧
    (∀ (fuel2 : Nat) (p : PackageData) (u : PackageUpdate),
      lookupVisited s.visited p.name = some (some u) →
      getPackageBump env (buildDict packages) fuel2 p s = some (u, s)) := by
  have hinv0 : InvS { visited := [], updates := [], queries := [] } := ⟨rfl, List.nodup_nil⟩
  obtain ⟨hs, -, hall⟩ := runLoop_good env (buildDict packages) fuel packages _ s hinv0 h
  refine ⟨hs.2, ?_, ?_⟩
  · intro p hp
    obtain ⟨u, hu⟩ := hall p hp
    have hmem : p.name ∈ s.visited.map Prod.fst := by
      by_contra hns
      rw [(lookupVisited_eq_none s.visited p.name).mpr hns] at hu
      cases hu
    rw [hs.1] at hmem
    exact ⟨List.count_eq_one_of_mem hs.2 hmem, u, hu⟩
  · intro fuel2 p u hu
    cases fuel2 with
    | zero => simp only [getPackageBump, hu]
    | succ f => simp only [getPackageBump, hu]

/-- C4 witness: the diamond run ("a" and "b" both depending on "c")
completes, with each of the three packages queried exactly once. -/
theorem claim4_memoized_once_witness :
    calculatePackagesUpdate c4Env 3 [c4A, c4B, c4C] = some c4State ∧
      c4State.queries.Nodup ∧
      c4State.queries.count "a" = 1 ∧
      c4State.queries.count "b" = 1 ∧
      c4State.queries.count "c" = 1 := by
  have h : calculatePackagesUpdate c4Env 3 [c4A, c4B, c4C] = some c4State := by decide
  have hc := claim4_memoized_once c4Env 3 [c4A, c4B, c4C] c4State h
  exact ⟨h, hc.1, (hc.2.1 c4A (by simp)).1, (hc.2.1 c4B (by simp)).1,
    (hc.2.1 c4C (by simp)).1⟩
